import Mathlib

/-!
# dmenu `draw.c`: text fitting, font selection and canvas resizing

A shallow embedding of `draw.c` / `draw.h`.

* C `int` values are `Int`; `size_t` values are `Nat`, with every `size_t`
  subtraction and increment written out modulo `2 ^ 64`.
* A C string is the list of its bytes before the terminating NUL.
* Calls into Xlib / Xft / Pango are parameters: their results are handed to the
  embedded functions as arguments.
* The build is the one with `PANGO` defined (the `DC` has `xftdraw` and
  `pango_layout`); a build without it is the special case in which
  `pango_layout` is never set.
-/

namespace Dmenu

/-! ## Data model (`draw.h`) -/

/-- A C `char`, by its numeric value. -/
abbrev Byte := Nat

/-- The byte `'.'`. -/
def dot : Byte := 46

/-- Number of values of a `size_t` (64 bits). -/
def SIZE_MOD : Nat := 2 ^ 64

/-- The macro `MAX(a, b)  ((a) > (b) ? (a) : (b))`. -/
def MAX {α : Type} [LT α] [DecidableRel (fun a b : α => a < b)] (a b : α) : α :=
  if a > b then a else b

/-- The macro `MIN(a, b)  ((a) < (b) ? (a) : (b))`. -/
def MIN {α : Type} [LT α] [DecidableRel (fun a b : α => a < b)] (a b : α) : α :=
  if a < b then a else b

/-- The fields of Xlib's `XFontStruct` that `draw.c` reads. -/
structure XFontStruct where
  fid : Nat
  ascent : Int
  descent : Int
  max_bounds_width : Int
  deriving DecidableEq, Repr

/-- An `XFontSet`, by the fonts `XFontsOfFontSet` enumerates for it. -/
structure XFontSet where
  xfonts : List XFontStruct
  deriving DecidableEq, Repr

/-- An `XftDraw`, by the drawable (pixmap) it was created on. -/
structure XftDraw where
  drawable : Nat
  deriving DecidableEq, Repr

/-- A `PangoLayout` handle. -/
structure PangoLayout where
  id : Nat
  deriving DecidableEq, Repr

/-- The anonymous `font` struct inside `DC`. -/
structure Font where
  ascent : Int
  descent : Int
  height : Int
  width : Int
  set : Option XFontSet
  xfont : Option XFontStruct
  deriving DecidableEq, Repr

/-- The draw context `DC`. A null pointer or the null XID is `none`. -/
structure DC where
  x : Int
  y : Int
  w : Int
  h : Int
  invert : Bool
  dpy : Nat
  gc : Nat
  canvas : Option Nat
  xftdraw : Option XftDraw
  pango_layout : Option PangoLayout
  font : Font
  deriving DecidableEq, Repr

/-- The struct `ColorSet`. -/
structure ColorSet where
  FG : Nat
  FG_xft : Nat
  BG : Nat
  deriving DecidableEq, Repr

/-! ## Text measurement (`textnw`) -/

/-- The three text-extent queries `textnw` dispatches to. Each is handed a
pointer and a byte count, and is a function of those bytes:
`XTextWidth(font, text, len)`, the `r.width` that
`XmbTextExtents(set, text, len, NULL, &r)` stores, and the `width` that
`pango_layout_get_pixel_size` stores after `pango_layout_set_text(layout, text, len)`. -/
structure Extents where
  XTextWidth : Option XFontStruct → List Byte → Int
  XmbTextExtents_width : XFontSet → List Byte → Int
  pango_pixel_width : PangoLayout → List Byte → Int

/-- The function `textnw(dc, text, len)`. -/
def textnw (X : Extents) (dc : DC) (text : List Byte) (len : Nat) : Int :=
  match dc.pango_layout with
  | some layout => X.pango_pixel_width layout (text.take len)
  | none =>
    match dc.font.set with
    | some set => X.XmbTextExtents_width set (text.take len)
    | none => X.XTextWidth dc.font.xfont (text.take len)

/-- The function `textw(dc, text)`. -/
def textw (X : Extents) (dc : DC) (text : List Byte) : Int :=
  textnw X dc text text.length + dc.font.height

/-! ## Text fitting (`drawtext`) -/

/-- How a run of embedded code ends: with a value, by a store outside an
array, or by exhausting the step budget of a loop. -/
inductive Run (α : Type) where
  | done (a : α)
  | outOfBounds
  | outOfFuel
  deriving DecidableEq, Repr

/-- The calls `drawtext` makes to the other drawing functions. -/
inductive Call where
  | drawrect (x y : Int) (w h : Nat) (fill : Bool) (color : Nat)
  | drawtextn (text : List Byte) (n : Nat) (col : ColorSet)
  deriving DecidableEq, Repr

/-- What one run of `drawtext` did: the values of `mn` at which the loop
condition was evaluated, the byte count given to `memcpy` (if reached), the
indices of `buf` at which the ellipsis loop stored `'.'`, and the calls made. -/
structure Trace where
  tested : List Nat
  copied : Option Nat
  dots : List Nat
  calls : List Call
  deriving DecidableEq, Repr

/-- Conversion of an `int` argument to an `unsigned int` parameter. -/
def toUnsigned (i : Int) : Nat := (i % 2 ^ 32).toNat

/-- The loop
`for(mn = ...; textnw(dc, text, mn) + dc->font.height/2 > dc->w; mn--) if(mn == 0) return;`
from the current `mn`, with a step budget. The result is the final `mn`
(`none` for the `return`) and the values of `mn` the condition was evaluated at. -/
def shorten (X : Extents) (dc : DC) (text : List Byte) :
    Nat → Nat → Run (Option Nat × List Nat)
  | 0, _ => .outOfFuel
  | fuel + 1, mn =>
    if textnw X dc text mn + Int.tdiv dc.font.height 2 > dc.w then
      if mn = 0 then .done (none, [mn])
      else
        match shorten X dc text fuel ((mn + SIZE_MOD - 1) % SIZE_MOD) with
        | .done (r, t) => .done (r, mn :: t)
        | .outOfBounds => .outOfBounds
        | .outOfFuel => .outOfFuel
    else .done (some mn, [mn])

/-- The call `memcpy(dst, src, n)` into an array `dst`. -/
def memcpy (dst src : List Byte) (n : Nat) : Run (List Byte) :=
  if n ≤ dst.length ∧ n ≤ src.length then .done (src.take n ++ dst.drop n)
  else .outOfBounds

/-- The loop `for(...; n < mn; buf[n++] = '.');` from the current `n`, with a
step budget. The result is the buffer and the indices stored to. -/
def ellipsis : Nat → Nat → Nat → List Byte → Run (List Byte × List Nat)
  | 0, _, _, _ => .outOfFuel
  | fuel + 1, n, mn, buf =>
    if n < mn then
      if n < buf.length then
        match ellipsis fuel ((n + 1) % SIZE_MOD) mn (buf.set n dot) with
        | .done (b, ws) => .done (b, n :: ws)
        | .outOfBounds => .outOfBounds
        | .outOfFuel => .outOfFuel
      else .outOfBounds
    else .done (buf, [])

/-- The function `drawtext(dc, text, col)`. `buf` is the scratch array
`char buf[BUFSIZ]` with whatever bytes it holds on entry; `sizeof buf` is its
length. Each loop gets as budget one more step than the starting `mn`. -/
def drawtext (X : Extents) (dc : DC) (buf : List Byte) (text : List Byte)
    (col : ColorSet) : Run Trace :=
  let n := text.length
  let mn0 := MIN n buf.length
  match shorten X dc text (mn0 + 1) mn0 with
  | .outOfFuel => .outOfFuel
  | .outOfBounds => .outOfBounds
  | .done (none, tested) => .done ⟨tested, none, [], []⟩
  | .done (some mn, tested) =>
    match memcpy buf text mn with
    | .outOfFuel => .outOfFuel
    | .outOfBounds => .outOfBounds
    | .done buf1 =>
      let fill : Run (List Byte × List Nat) :=
        if mn < n then ellipsis (mn + 1) (MAX ((mn + SIZE_MOD - 3) % SIZE_MOD) 0) mn buf1
        else .done (buf1, [])
      match fill with
      | .outOfFuel => .outOfFuel
      | .outOfBounds => .outOfBounds
      | .done (buf2, dots) =>
        .done ⟨tested, some mn, dots,
          [Call.drawrect 0 0 (toUnsigned dc.w) (toUnsigned dc.h) true col.BG,
           Call.drawtextn buf2 mn col]⟩

/-! ## Context creation and font selection (`initdc`, `initfont`) -/

/-- How a call ends: by returning, or in `eprintf`, which prints the message
and calls `exit(EXIT_FAILURE)`. -/
inductive Exit (α : Type) where
  | returns (a : α)
  | eprintf (fmt : String)
  deriving DecidableEq, Repr

/-- The function `initdc()`. `calloc_ok` tells whether `calloc` gave memory,
`XOpenDisplay` is the display it opens, `XCreateGC` the graphics context made
for a display. The `DC` comes from `calloc`, so every other field is zero. -/
def initdc (calloc_ok : Bool) (XOpenDisplay : Option Nat) (XCreateGC : Nat → Nat) :
    Exit DC :=
  if calloc_ok then
    match XOpenDisplay with
    | none => .eprintf "cannot open display\n"
    | some dpy =>
      .returns
        { x := 0, y := 0, w := 0, h := 0, invert := false, dpy := dpy,
          gc := XCreateGC dpy, canvas := none, xftdraw := none, pango_layout := none,
          font := { ascent := 0, descent := 0, height := 0, width := 0,
                    set := none, xfont := none } }
  else .eprintf "cannot malloc %u bytes:"

/-- A `PangoContext` handle. -/
structure PangoContext where
  id : Nat
  deriving DecidableEq, Repr

/-- A `PangoFontDescription` handle. -/
structure PangoFontDescription where
  id : Nat
  deriving DecidableEq, Repr

/-- The values a `PangoFontMetrics` reports, in Pango units. -/
structure PangoFontMetrics where
  ascent : Int
  descent : Int
  approximate_char_width : Int
  deriving DecidableEq, Repr

/-- The font-loading calls of `initfont`, as functions of the arguments that
`initfont` varies: `XLoadQueryFont(dpy, fontstr)`,
`XCreateFontSet(dpy, fontstr, ...)`, `pango_font_map_create_context(...)`,
`pango_layout_new(ctx)`, `pango_font_description_from_string(fontstr)` and
`pango_context_get_metrics(ctx, fdesc, NULL)`. A null result is `none`. -/
structure FontLib where
  XLoadQueryFont : List Byte → Option XFontStruct
  XCreateFontSet : List Byte → Option XFontSet
  pango_font_map_create_context : Option PangoContext
  pango_layout_new : PangoContext → Option PangoLayout
  pango_font_description_from_string : List Byte → Option PangoFontDescription
  pango_context_get_metrics : PangoContext → PangoFontDescription → Option PangoFontMetrics

/-- Pango's macro `PANGO_PIXELS(d)  (((int)(d) + 512) >> 10)`. -/
def PANGO_PIXELS (d : Int) : Int := (d + 512) / 1024

/-- The loop `for(i = 0; i < n; i++) { ... MAX ... }` of `initfont` over the
fonts of the set, from the current metrics. -/
def fontsetLoop : List XFontStruct → Font → Font
  | [], font => font
  | xf :: rest, font =>
    fontsetLoop rest
      { font with
        ascent := MAX font.ascent xf.ascent
        descent := MAX font.descent xf.descent
        width := MAX font.width xf.max_bounds_width }

/-- The last statement of `initfont`:
`dc->font.height = dc->font.ascent + dc->font.descent;`. -/
def setHeight (dc : DC) : DC :=
  { dc with font := { dc.font with height := dc.font.ascent + dc.font.descent } }

/-- The function `initfont(dc, fontstr)`. -/
def initfont (L : FontLib) (dc : DC) (fontstr : List Byte) : Exit DC :=
  match L.XLoadQueryFont fontstr with
  | some xfont =>
    .returns (setHeight
      { dc with font :=
        { dc.font with
          xfont := some xfont
          ascent := xfont.ascent
          descent := xfont.descent
          width := xfont.max_bounds_width } })
  | none =>
    match L.XCreateFontSet fontstr with
    | some set =>
      .returns (setHeight
        { dc with font :=
          fontsetLoop set.xfonts { dc.font with xfont := none, set := some set } })
    | none =>
      let dc0 : DC := { dc with font := { dc.font with xfont := none, set := none } }
      match L.pango_font_map_create_context with
      | none => .eprintf "error, cannot create pango context\n"
      | some pango_ctx =>
        match L.pango_layout_new pango_ctx with
        | none => .eprintf "error, cannot create pango layout\n"
        | some layout =>
          match L.pango_font_description_from_string fontstr with
          | none => .eprintf "error, cannot create pango font description\n"
          | some pango_fdesc =>
            match L.pango_context_get_metrics pango_ctx pango_fdesc with
            | none => .eprintf "error, cannot get pango font metrics\n"
            | some m =>
              .returns (setHeight
                { dc0 with
                  pango_layout := some layout
                  font :=
                    { dc0.font with
                      ascent := PANGO_PIXELS m.ascent
                      descent := PANGO_PIXELS m.descent
                      width := PANGO_PIXELS m.approximate_char_width } })

/-! ## Canvas resizing (`resizedc`) -/

/-- The pixmaps of the X server: how many were created so far, and which of
them have not been freed. Every `XCreatePixmap` makes a new pixmap, named by
its creation number. -/
structure XServer where
  created : Nat
  live : List Nat
  deriving DecidableEq, Repr

/-- The call `XFreePixmap(dpy, pixmap)`. -/
def XFreePixmap (s : XServer) (pixmap : Nat) : XServer :=
  { s with live := s.live.erase pixmap }

/-- The call `XCreatePixmap(dpy, root, w, h, depth)`. -/
def XCreatePixmap (s : XServer) : Nat × XServer :=
  (s.created + 1, { created := s.created + 1, live := (s.created + 1) :: s.live })

/-- Conversion of an `unsigned int` argument to an `int` field. -/
def toSigned (u : Nat) : Int :=
  if u % 2 ^ 32 < 2 ^ 31 then ((u % 2 ^ 32 : Nat) : Int) else ((u % 2 ^ 32 : Nat) : Int) - 2 ^ 32

/-- The function `resizedc(dc, w, h)`. `XftDrawCreate_ok` tells whether
`XftDrawCreate` gives a drawable; the one it gives is on the pixmap passed. -/
def resizedc (XftDrawCreate_ok : Bool) (s : XServer) (dc : DC) (w h : Nat) :
    Exit (XServer × DC) :=
  let s1 := match dc.canvas with
    | some canvas => XFreePixmap s canvas
    | none => s
  let created := XCreatePixmap s1
  let dc1 : DC := { dc with w := toSigned w, h := toSigned h, canvas := some created.1 }
  match dc1.pango_layout, dc1.xftdraw with
  | some _, none =>
    if XftDrawCreate_ok then
      .returns (created.2, { dc1 with xftdraw := some { drawable := created.1 } })
    else .eprintf "error, cannot create xft drawable\n"
  | _, _ => .returns (created.2, dc1)

/-- Two calls `resizedc(dc, w1, h1); resizedc(dc, w2, h2);` in a row. -/
def resizedcTwice (XftDrawCreate_ok : Bool) (s : XServer) (dc : DC) (w1 h1 w2 h2 : Nat) :
    Exit (XServer × DC) :=
  match resizedc XftDrawCreate_ok s dc w1 h1 with
  | .returns (s1, dc1) => resizedc XftDrawCreate_ok s1 dc1 w2 h2
  | .eprintf fmt => .eprintf fmt

/-! ## Example inputs -/

/-- The bytes of an ASCII string. -/
def bytes (s : String) : List Byte := s.toList.map Char.toNat

/-- A scratch array of 8192 bytes (glibc's `BUFSIZ`), here holding zeros. -/
def scratch : List Byte := List.replicate 8192 0

/-- A colour set. -/
def colors : ColorSet := { FG := 16777215, FG_xft := 0, BG := 0 }

/-- A fixed-width bitmap font: ascent 10, descent 3, every glyph 6 pixels wide. -/
def fixed6x13 : XFontStruct := { fid := 1, ascent := 10, descent := 3, max_bounds_width := 6 }

/-- Extents of a fixed-width font: 6 pixels per byte. -/
def fixedExtents : Extents :=
  { XTextWidth := fun _ t => 6 * t.length
    XmbTextExtents_width := fun _ t => 6 * t.length
    pango_pixel_width := fun _ t => 6 * t.length }

/-- A context of width `w` using the font `fixed6x13` (height 13). -/
def fixedDC (w : Int) : DC :=
  { x := 0, y := 0, w := w, h := 13, invert := false, dpy := 1, gc := 1,
    canvas := some 1, xftdraw := none, pango_layout := none,
    font := { ascent := 10, descent := 3, height := 13, width := 6,
              set := none, xfont := some fixed6x13 } }

/-- Glyph widths of a proportional font in which `'.'` (5 pixels) is wider
than `'i'` (4 pixels); every other glyph is 10 pixels wide. -/
def glyphWidth (c : Byte) : Int := if c = 46 then 5 else if c = 105 then 4 else 10

/-- Extents of that proportional font: the sum of the glyph widths. -/
def propExtents : Extents :=
  { XTextWidth := fun _ t => (t.map glyphWidth).sum
    XmbTextExtents_width := fun _ t => (t.map glyphWidth).sum
    pango_pixel_width := fun _ t => (t.map glyphWidth).sum }

/-- A proportional bitmap font of height 10. -/
def propFont : XFontStruct := { fid := 2, ascent := 8, descent := 2, max_bounds_width := 10 }

/-- A context of width 17 using the proportional font (height 10). -/
def propDC : DC :=
  { x := 0, y := 0, w := 17, h := 10, invert := false, dpy := 1, gc := 1,
    canvas := some 1, xftdraw := none, pango_layout := none,
    font := { ascent := 8, descent := 2, height := 10, width := 10,
              set := none, xfont := some propFont } }

/-- A text of 8193 bytes `'a'`, one more than the scratch array holds. -/
def longText : List Byte := List.replicate 8193 97

/-- A font library in which `"fixed"` is a bitmap font, `"-*-helv-*"` a font
set of two fonts, and nothing else loads except through Pango. -/
def sampleLib : FontLib :=
  { XLoadQueryFont := fun s =>
      if s = bytes "fixed" then some { fid := 1, ascent := 20, descent := 5, max_bounds_width := 10 }
      else none
    XCreateFontSet := fun s =>
      if s = bytes "-*-helv-*" then
        some { xfonts := [{ fid := 2, ascent := 10, descent := 2, max_bounds_width := 6 },
                          { fid := 3, ascent := 12, descent := 3, max_bounds_width := 7 }] }
      else none
    pango_font_map_create_context := some { id := 1 }
    pango_layout_new := fun _ => some { id := 1 }
    pango_font_description_from_string := fun _ => some { id := 1 }
    pango_context_get_metrics := fun _ _ =>
      some { ascent := 11264, descent := 3072, approximate_char_width := 7168 } }

/-- A font library whose only font is a font set of one font with negative
ascent and descent. -/
def negativeLib : FontLib :=
  { XLoadQueryFont := fun _ => none
    XCreateFontSet := fun _ =>
      some { xfonts := [{ fid := 2, ascent := -1, descent := -2, max_bounds_width := -3 }] }
    pango_font_map_create_context := none
    pango_layout_new := fun _ => none
    pango_font_description_from_string := fun _ => none
    pango_context_get_metrics := fun _ _ => none }

/-- The context `initdc` returns for display 1 and graphics context 1. -/
def freshDC : DC :=
  { x := 0, y := 0, w := 0, h := 0, invert := false, dpy := 1, gc := 1,
    canvas := none, xftdraw := none, pango_layout := none,
    font := { ascent := 0, descent := 0, height := 0, width := 0,
              set := none, xfont := none } }

/-- An X server on which no pixmap was created yet. -/
def freshServer : XServer := { created := 0, live := [] }

/-! ## Loop lemmas -/

theorem shorten_spec (X : Extents) (dc : DC) (text : List Byte) :
    ∀ (mn fuel : Nat), mn < SIZE_MOD → mn < fuel →
      ∃ r t, shorten X dc text fuel mn = .done (r, t) ∧
        t.length ≤ mn + 1 ∧ t.head? = some mn ∧ (∀ k ∈ t, k ≤ mn) ∧
        List.Chain' (fun a b => a = b + 1) t ∧
        (∀ k, r = some k → k ≤ mn ∧ t.length = mn - k + 1 ∧
          textnw X dc text k + Int.tdiv dc.font.height 2 ≤ dc.w ∧
          ∀ j, k < j → j ≤ mn → textnw X dc text j + Int.tdiv dc.font.height 2 > dc.w) ∧
        (r = none → t.length = mn + 1 ∧
          ∀ j, j ≤ mn → textnw X dc text j + Int.tdiv dc.font.height 2 > dc.w) := by
  intro mn
  induction mn with
  | zero =>
    intro fuel _ hf
    obtain ⟨f, rfl⟩ : ∃ f, fuel = f + 1 := ⟨fuel - 1, by omega⟩
    by_cases hw : textnw X dc text 0 + Int.tdiv dc.font.height 2 > dc.w
    · refine ⟨none, [0], by simp [shorten, hw], by simp, rfl, by simp, by simp, by simp, ?_⟩
      intro _
      refine ⟨rfl, ?_⟩
      intro j hj
      have : j = 0 := by omega
      subst this
      exact hw
    · refine ⟨some 0, [0], by simp [shorten, hw], by simp, rfl, by simp, by simp, ?_, by simp⟩
      intro k hk
      have : k = 0 := by simpa using hk.symm
      subst this
      refine ⟨le_refl _, rfl, not_lt.mp hw, ?_⟩
      intro j h1 h2
      omega
  | succ m ih =>
    intro fuel hm hf
    obtain ⟨f, rfl⟩ : ∃ f, fuel = f + 1 := ⟨fuel - 1, by omega⟩
    by_cases hw : textnw X dc text (m + 1) + Int.tdiv dc.font.height 2 > dc.w
    · obtain ⟨r, t, hrun, hlen, hhead, hmem, hchain, hsome, hnone⟩ := ih f (by omega) (by omega)
      refine ⟨r, (m + 1) :: t, ?_, by simp; omega, rfl, ?_, ?_, ?_, ?_⟩
      · simp [shorten, hw, Nat.mod_eq_of_lt (show m < SIZE_MOD by omega), hrun]
      · intro k hk
        rcases List.mem_cons.mp hk with h | h
        · omega
        · exact Nat.le_succ_of_le (hmem k h)
      · cases t with
        | nil => simp
        | cons a t' =>
          simp only [List.head?_cons, Option.some.injEq] at hhead
          subst hhead
          exact List.Chain'.cons rfl hchain
      · intro k hk
        obtain ⟨h1, h2, h3, h4⟩ := hsome k hk
        refine ⟨by omega, by simp; omega, h3, ?_⟩
        intro j hj1 hj2
        by_cases hj : j = m + 1
        · subst hj; exact hw
        · exact h4 j hj1 (by omega)
      · intro hr
        obtain ⟨h1, h2⟩ := hnone hr
        refine ⟨by simp; omega, ?_⟩
        intro j hj
        by_cases hj' : j = m + 1
        · subst hj'; exact hw
        · exact h2 j (by omega)
    · refine ⟨some (m + 1), [m + 1], by simp [shorten, hw], by simp, rfl, by simp, by simp, ?_, by simp⟩
      intro k hk
      have : k = m + 1 := by simpa using hk.symm
      subst this
      refine ⟨le_refl _, by simp, not_lt.mp hw, ?_⟩
      intro j h1 h2
      omega

theorem ellipsis_short (mn : Nat) (buf : List Byte) (h : mn < 3) :
    ellipsis (mn + 1) (MAX ((mn + SIZE_MOD - 3) % SIZE_MOD) 0) mn buf = .done (buf, []) := by
  have h1 : (mn + SIZE_MOD - 3) % SIZE_MOD = mn + SIZE_MOD - 3 :=
    Nat.mod_eq_of_lt (by simp only [SIZE_MOD]; omega)
  have h2 : MAX (mn + SIZE_MOD - 3) 0 = mn + SIZE_MOD - 3 := by
    unfold MAX
    rw [if_pos]
    simp only [SIZE_MOD]; omega
  rw [h1, h2, ellipsis, if_neg]
  simp only [SIZE_MOD]; omega

theorem ellipsis_long (mn : Nat) (buf : List Byte) (h : 3 ≤ mn) (hs : mn < SIZE_MOD)
    (hb : mn ≤ buf.length) :
    ellipsis (mn + 1) (MAX ((mn + SIZE_MOD - 3) % SIZE_MOD) 0) mn buf =
      .done (((buf.set (mn - 3) dot).set (mn - 2) dot).set (mn - 1) dot,
        [mn - 3, mn - 2, mn - 1]) := by
  have h1 : (mn + SIZE_MOD - 3) % SIZE_MOD = mn - 3 := by
    have : mn + SIZE_MOD - 3 = (mn - 3) + SIZE_MOD := by omega
    rw [this, Nat.add_mod_right, Nat.mod_eq_of_lt (by omega)]
  have h2 : MAX (mn - 3) 0 = mn - 3 := by
    unfold MAX
    split <;> omega
  obtain ⟨k, rfl⟩ : ∃ k, mn = k + 3 := ⟨mn - 3, by omega⟩
  have e1 : (k + 1) % SIZE_MOD = k + 1 := Nat.mod_eq_of_lt (by omega)
  have e2 : (k + 1 + 1) % SIZE_MOD = k + 2 := Nat.mod_eq_of_lt (by omega)
  have e3 : (k + 2 + 1) % SIZE_MOD = k + 3 := Nat.mod_eq_of_lt (by omega)
  rw [h1, h2]
  simp only [Nat.add_sub_cancel]
  have a1 : k + 3 - 2 = k + 1 := by omega
  have a2 : k + 3 - 1 = k + 2 := by omega
  rw [a1, a2]
  rw [ellipsis, if_pos (by omega), if_pos (by omega), e1,
    ellipsis, if_pos (by omega), if_pos (by simp; omega), e2,
    ellipsis, if_pos (by omega), if_pos (by simp; omega), e3,
    ellipsis, if_neg (by omega)]

theorem MIN_le_left (a b : Nat) : MIN a b ≤ a := by
  unfold MIN; split <;> omega

theorem MIN_le_right (a b : Nat) : MIN a b ≤ b := by
  unfold MIN; split <;> omega

theorem MIN_eq_left (a b : Nat) (h : a ≤ b) : MIN a b = a := by
  unfold MIN; split <;> omega

/-- One run of `drawtext`, in terms of the outcome of its shortening loop. -/
theorem drawtext_run (X : Extents) (dc : DC) (buf text : List Byte) (col : ColorSet)
    (hbuf : buf.length < SIZE_MOD) :
    ∃ r t, shorten X dc text (MIN text.length buf.length + 1) (MIN text.length buf.length)
        = .done (r, t) ∧
      drawtext X dc buf text col =
        (match r with
        | none => .done ⟨t, none, [], []⟩
        | some mn =>
          .done ⟨t, some mn,
            if mn < text.length ∧ 3 ≤ mn then [mn - 3, mn - 2, mn - 1] else [],
            [Call.drawrect 0 0 (toUnsigned dc.w) (toUnsigned dc.h) true col.BG,
             Call.drawtextn
              (if mn < text.length ∧ 3 ≤ mn then
                (((text.take mn ++ buf.drop mn).set (mn - 3) dot).set (mn - 2) dot).set
                  (mn - 1) dot
               else text.take mn ++ buf.drop mn) mn col]⟩) ∧
      t.length ≤ MIN text.length buf.length + 1 ∧
      t.head? = some (MIN text.length buf.length) ∧
      (∀ k ∈ t, k ≤ MIN text.length buf.length) ∧
      List.Chain' (fun a b => a = b + 1) t ∧
      (∀ k, r = some k → k ≤ MIN text.length buf.length ∧
        t.length = MIN text.length buf.length - k + 1 ∧
        textnw X dc text k + Int.tdiv dc.font.height 2 ≤ dc.w ∧
        ∀ j, k < j → j ≤ MIN text.length buf.length →
          textnw X dc text j + Int.tdiv dc.font.height 2 > dc.w) ∧
      (r = none → t.length = MIN text.length buf.length + 1 ∧
        ∀ j, j ≤ MIN text.length buf.length →
          textnw X dc text j + Int.tdiv dc.font.height 2 > dc.w) := by
  have h0 : MIN text.length buf.length < SIZE_MOD :=
    lt_of_le_of_lt (MIN_le_right _ _) hbuf
  obtain ⟨r, t, hrun, hlen, hhead, hmem, hchain, hsome, hnone⟩ :=
    shorten_spec X dc text (MIN text.length buf.length) (MIN text.length buf.length + 1) h0
      (Nat.lt_succ_self _)
  refine ⟨r, t, hrun, ?_, hlen, hhead, hmem, hchain, hsome, hnone⟩
  unfold drawtext
  simp only [hrun]
  cases r with
  | none => rfl
  | some mn =>
    obtain ⟨hle, -, -, -⟩ := hsome mn rfl
    have hn : mn ≤ text.length := le_trans hle (MIN_le_left _ _)
    have hb : mn ≤ buf.length := le_trans hle (MIN_le_right _ _)
    have hcopy : memcpy buf text mn = .done (text.take mn ++ buf.drop mn) := by
      unfold memcpy
      rw [if_pos ⟨hb, hn⟩]
    simp only [hcopy]
    by_cases hlt : mn < text.length
    · by_cases h3 : 3 ≤ mn
      · have hlen : mn ≤ (text.take mn ++ buf.drop mn).length := by
          simp [List.length_take, List.length_drop]; omega
        simp only [if_pos hlt, if_pos (And.intro hlt h3),
          ellipsis_long mn _ h3 (by omega) hlen]
      · have hno : ¬ (mn < text.length ∧ 3 ≤ mn) := fun h => h3 h.2
        simp only [if_pos hlt, if_neg hno, ellipsis_short mn _ (by omega)]
    · have hno : ¬ (mn < text.length ∧ 3 ≤ mn) := fun h => hlt h.1
      simp only [if_neg hlt, if_neg hno]

/-- A text that fits at its full length, and is no longer than the scratch
array, is copied whole and drawn with no `'.'` stored. -/
theorem drawtext_of_fits (X : Extents) (dc : DC) (buf text : List Byte) (col : ColorSet)
    (hlen : text.length ≤ buf.length)
    (hfit : textnw X dc text text.length + Int.tdiv dc.font.height 2 ≤ dc.w) :
    drawtext X dc buf text col =
      .done ⟨[text.length], some text.length, [],
        [Call.drawrect 0 0 (toUnsigned dc.w) (toUnsigned dc.h) true col.BG,
         Call.drawtextn (text ++ buf.drop text.length) text.length col]⟩ := by
  have hmin : MIN text.length buf.length = text.length := MIN_eq_left _ _ hlen
  have hrun : shorten X dc text (text.length + 1) text.length
      = .done (some text.length, [text.length]) := by
    rw [shorten, if_neg (not_lt.mpr hfit)]
  have hcopy : memcpy buf text text.length = .done (text ++ buf.drop text.length) := by
    unfold memcpy
    rw [if_pos ⟨hlen, le_refl _⟩, List.take_length]
  unfold drawtext
  simp only [hmin, hrun, hcopy, lt_irrefl, if_false]

/-- The scratch array of the examples has 8192 bytes. -/
theorem scratch_length : scratch.length = 8192 := by
  unfold scratch
  exact List.length_replicate 8192 0

/-- The scratch array of the examples is addressable by a `size_t`. -/
theorem scratch_lt : scratch.length < SIZE_MOD := by
  rw [scratch_length]; decide

/-- A run of `drawtext` whose shortening loop stops at `mn`. -/
theorem drawtext_eval_some (X : Extents) (dc : DC) (buf text : List Byte) (col : ColorSet)
    (hbuf : buf.length < SIZE_MOD) (mn : Nat) (t : List Nat)
    (h : shorten X dc text (MIN text.length buf.length + 1) (MIN text.length buf.length)
      = .done (some mn, t)) :
    drawtext X dc buf text col =
      .done ⟨t, some mn,
        if mn < text.length ∧ 3 ≤ mn then [mn - 3, mn - 2, mn - 1] else [],
        [Call.drawrect 0 0 (toUnsigned dc.w) (toUnsigned dc.h) true col.BG,
         Call.drawtextn
          (if mn < text.length ∧ 3 ≤ mn then
            (((text.take mn ++ buf.drop mn).set (mn - 3) dot).set (mn - 2) dot).set
              (mn - 1) dot
           else text.take mn ++ buf.drop mn) mn col]⟩ := by
  obtain ⟨r, t', hrun, hdraw, -⟩ := drawtext_run X dc buf text col hbuf
  rw [h] at hrun
  injection hrun with hrun
  injection hrun with hr ht
  subst hr; subst ht
  exact hdraw

/-- Membership of a `drawtextn` call in the two calls `drawtext` makes. -/
theorem mem_calls (x y : Int) (w h : Nat) (fill : Bool) (color : Nat)
    (B b : List Byte) (m mn : Nat) (col c : ColorSet)
    (hmem : Call.drawtextn b mn c ∈
      [Call.drawrect x y w h fill color, Call.drawtextn B m col]) :
    b = B ∧ mn = m ∧ c = col := by
  simp only [List.mem_cons, List.mem_singleton, reduceCtorEq, false_or,
    Call.drawtextn.injEq, List.not_mem_nil, or_false] at hmem
  exact hmem

/-! ## The claims about `drawtext` -/

/-- C1, as amended: a text `T` no longer than the scratch array whose full
measured width plus `height/2` is at most `dc->w` is drawn unmodified: the
loop condition is evaluated once, the length passed to `drawtextn` is
`len(T)`, the bytes drawn are those of `T`, and no `'.'` is stored. -/
theorem drawtext_fits_unmodified (X : Extents) (dc : DC) (buf text : List Byte)
    (col : ColorSet) (hlen : text.length ≤ buf.length)
    (hfit : textnw X dc text text.length + Int.tdiv dc.font.height 2 ≤ dc.w) :
    ∃ b, drawtext X dc buf text col =
        .done ⟨[text.length], some text.length, [],
          [Call.drawrect 0 0 (toUnsigned dc.w) (toUnsigned dc.h) true col.BG,
           Call.drawtextn b text.length col]⟩ ∧
      b.take text.length = text := by
  refine ⟨text ++ buf.drop text.length, drawtext_of_fits X dc buf text col hlen hfit, ?_⟩
  simp

/-- Witness for C1 as amended: `"Hello, World!"` in a context whose width is
exactly its measured width (78) plus `height/2` (6). -/
theorem drawtext_fits_unmodified_witness :
    (bytes "Hello, World!").length ≤ scratch.length ∧
    textnw fixedExtents (fixedDC 84) (bytes "Hello, World!") (bytes "Hello, World!").length
      + Int.tdiv (fixedDC 84).font.height 2 ≤ (fixedDC 84).w ∧
    ∃ b, drawtext fixedExtents (fixedDC 84) scratch (bytes "Hello, World!") colors =
        .done ⟨[(bytes "Hello, World!").length], some (bytes "Hello, World!").length, [],
          [Call.drawrect 0 0 (toUnsigned (fixedDC 84).w) (toUnsigned (fixedDC 84).h) true
            colors.BG,
           Call.drawtextn b (bytes "Hello, World!").length colors]⟩ ∧
      b.take (bytes "Hello, World!").length = bytes "Hello, World!" :=
  ⟨by rw [scratch_length]; decide, by decide,
    drawtext_fits_unmodified fixedExtents (fixedDC 84) scratch (bytes "Hello, World!") colors
      (by rw [scratch_length]; decide) (by decide)⟩

/-- Counterexample to C1 as stated: a text of 8193 bytes fits the width at its
full length, yet with a scratch array of 8192 bytes `drawtext` passes the
length 8192 to `drawtextn` and stores `'.'` at offsets 8189, 8190 and 8191. -/
theorem drawtext_long_text_truncated :
    longText.length = 8193 ∧
    textnw fixedExtents (fixedDC 49164) longText longText.length
      + Int.tdiv (fixedDC 49164).font.height 2 ≤ (fixedDC 49164).w ∧
    ∃ b, drawtext fixedExtents (fixedDC 49164) scratch longText colors =
      .done ⟨[8192], some 8192, [8189, 8190, 8191],
        [Call.drawrect 0 0 49164 13 true 0, Call.drawtextn b 8192 colors]⟩ := by
  have hlen : longText.length = 8193 := List.length_replicate 8193 97
  have hmin : MIN longText.length scratch.length = 8192 := by
    rw [hlen, scratch_length]; decide
  have hw : ∀ k, k ≤ 8193 → textnw fixedExtents (fixedDC 49164) longText k = 6 * (k : Int) := by
    intro k hk
    show (6 : Int) * ((longText.take k).length : Nat) = 6 * (k : Int)
    rw [List.length_take, hlen, Nat.min_eq_left hk]
  have hh : Int.tdiv (fixedDC 49164).font.height 2 = 6 := by decide
  have hwd : (fixedDC 49164).w = 49164 := rfl
  refine ⟨hlen, ?_, ?_⟩
  · rw [hlen, hw 8193 (le_refl _), hh, hwd]; decide
  · have hrun : shorten fixedExtents (fixedDC 49164) longText
        (MIN longText.length scratch.length + 1) (MIN longText.length scratch.length)
        = .done (some 8192, [8192]) := by
      rw [hmin, shorten, if_neg]
      rw [hw 8192 (by decide), hh, hwd]; decide
    have h := drawtext_eval_some fixedExtents (fixedDC 49164) scratch longText colors
      scratch_lt 8192 [8192] hrun
    rw [hlen] at h
    exact ⟨_, h⟩

/-- C2: whenever `drawtext` draws, the length `mn` it passes to `drawtextn` is
the greatest `k` with `0 <= k <= min(len(T), sizeof buf)` and
`textnw(T, k) + height/2 <= dc->w`: `mn` satisfies the bound and every larger
`k` up to the minimum violates it, whatever the measure function (monotone or
not); and it does draw as soon as some such `k` satisfies the bound. -/
theorem drawtext_longest_prefix (X : Extents) (dc : DC) (buf text : List Byte)
    (col : ColorSet) (hbuf : buf.length < SIZE_MOD) :
    ∃ tr, drawtext X dc buf text col = .done tr ∧
      (∀ b mn c, Call.drawtextn b mn c ∈ tr.calls →
        tr.copied = some mn ∧ mn ≤ MIN text.length buf.length ∧
        textnw X dc text mn + Int.tdiv dc.font.height 2 ≤ dc.w ∧
        ∀ k, mn < k → k ≤ MIN text.length buf.length →
          ¬ (textnw X dc text k + Int.tdiv dc.font.height 2 ≤ dc.w)) ∧
      ((∃ k, k ≤ MIN text.length buf.length ∧
          textnw X dc text k + Int.tdiv dc.font.height 2 ≤ dc.w) →
        ∃ b mn, tr.calls =
          [Call.drawrect 0 0 (toUnsigned dc.w) (toUnsigned dc.h) true col.BG,
           Call.drawtextn b mn col]) := by
  obtain ⟨r, t, -, hdraw, -, -, -, -, hsome, hnone⟩ := drawtext_run X dc buf text col hbuf
  cases r with
  | none =>
    refine ⟨_, hdraw, ?_, ?_⟩
    · intro b mn c hmem
      simp at hmem
    · rintro ⟨k, hk, hfit⟩
      exact absurd hfit (not_le.mpr ((hnone rfl).2 k hk))
  | some m =>
    obtain ⟨hle, -, hfit, hmax⟩ := hsome m rfl
    refine ⟨_, hdraw, ?_, ?_⟩
    · intro b mn c hmem
      obtain ⟨-, rfl, -⟩ := mem_calls _ _ _ _ _ _ _ _ _ _ _ _ hmem
      exact ⟨rfl, hle, hfit, fun k h1 h2 => not_le.mpr (hmax k h1 h2)⟩
    · intro _
      exact ⟨_, _, rfl⟩

/-- Witness for C2: the 28-byte label in a context 66 pixels wide. -/
theorem drawtext_longest_prefix_witness :
    scratch.length < SIZE_MOD ∧
    ∃ tr, drawtext fixedExtents (fixedDC 66) scratch (bytes "ThisIsAVeryLongMenuItemLabel")
        colors = .done tr ∧
      (∀ b mn c, Call.drawtextn b mn c ∈ tr.calls →
        tr.copied = some mn ∧
        mn ≤ MIN (bytes "ThisIsAVeryLongMenuItemLabel").length scratch.length ∧
        textnw fixedExtents (fixedDC 66) (bytes "ThisIsAVeryLongMenuItemLabel") mn
          + Int.tdiv (fixedDC 66).font.height 2 ≤ (fixedDC 66).w ∧
        ∀ k, mn < k → k ≤ MIN (bytes "ThisIsAVeryLongMenuItemLabel").length scratch.length →
          ¬ (textnw fixedExtents (fixedDC 66) (bytes "ThisIsAVeryLongMenuItemLabel") k
            + Int.tdiv (fixedDC 66).font.height 2 ≤ (fixedDC 66).w)) ∧
      ((∃ k, k ≤ MIN (bytes "ThisIsAVeryLongMenuItemLabel").length scratch.length ∧
          textnw fixedExtents (fixedDC 66) (bytes "ThisIsAVeryLongMenuItemLabel") k
            + Int.tdiv (fixedDC 66).font.height 2 ≤ (fixedDC 66).w) →
        ∃ b mn, tr.calls =
          [Call.drawrect 0 0 (toUnsigned (fixedDC 66).w) (toUnsigned (fixedDC 66).h) true
            colors.BG,
           Call.drawtextn b mn colors]) :=
  ⟨scratch_lt,
    drawtext_longest_prefix fixedExtents (fixedDC 66) scratch
      (bytes "ThisIsAVeryLongMenuItemLabel") colors scratch_lt⟩

/-- The run of `drawtext` on `"iiii"` in the proportional-font context: the
loop stops at 3 and the three bytes drawn are all `'.'`. -/
theorem drawtext_iiii :
    ∃ b, drawtext propExtents propDC scratch (bytes "iiii") colors =
        .done ⟨[4, 3], some 3, [0, 1, 2],
          [Call.drawrect 0 0 17 10 true 0, Call.drawtextn b 3 colors]⟩ ∧
      b.take 3 = bytes "..." := by
  have hmin : MIN (bytes "iiii").length scratch.length = 4 := by
    rw [scratch_length]; decide
  have hrun : shorten propExtents propDC (bytes "iiii")
      (MIN (bytes "iiii").length scratch.length + 1) (MIN (bytes "iiii").length scratch.length)
      = .done (some 3, [4, 3]) := by
    rw [hmin]; decide
  refine ⟨_, drawtext_eval_some propExtents propDC scratch (bytes "iiii") colors
    scratch_lt 3 [4, 3] hrun, ?_⟩
  have ht : List.take 3 (bytes "iiii") = [105, 105, 105] := by decide
  rw [if_pos (by decide), ht]
  rfl

/-- Counterexample to C3 as stated: in a proportional font where `'.'` is 5
pixels wide and `'i'` 4, with `height/2 = 5` and `dc->w = 17` (wider than any
glyph), `"iiii"` is cut to 3 bytes (12 + 5 <= 17), all three become `'.'`, and
the slice handed to `drawtextn` measures 15 + 5 > 17. -/
theorem drawtext_ellipsis_too_wide :
    (∀ c, glyphWidth c + Int.tdiv propDC.font.height 2 ≤ propDC.w) ∧
    ∃ b, drawtext propExtents propDC scratch (bytes "iiii") colors =
        .done ⟨[4, 3], some 3, [0, 1, 2],
          [Call.drawrect 0 0 17 10 true 0, Call.drawtextn b 3 colors]⟩ ∧
      ¬ (textnw propExtents propDC b 3 + Int.tdiv propDC.font.height 2 ≤ propDC.w) := by
  refine ⟨?_, ?_⟩
  · intro c
    have h1 : Int.tdiv propDC.font.height 2 = 5 := by decide
    have h2 : propDC.w = 17 := rfl
    rw [h1, h2]
    unfold glyphWidth
    split
    · decide
    · split <;> decide
  · obtain ⟨b, hb, htake⟩ := drawtext_iiii
    refine ⟨b, hb, ?_⟩
    have hw : textnw propExtents propDC b 3 = ((b.take 3).map glyphWidth).sum := rfl
    rw [hw, htake]
    decide

/-- The measure reads only the first `len` bytes of the text. -/
theorem textnw_congr (X : Extents) (dc : DC) (s t : List Byte) (n : Nat)
    (h : s.take n = t.take n) : textnw X dc s n = textnw X dc t n := by
  unfold textnw
  rw [h]

/-- The buffer `drawtext` hands to `drawtextn` is as long as the scratch array. -/
theorem drawn_length (buf text : List Byte) (m : Nat) (hn : m ≤ text.length)
    (hb : m ≤ buf.length) :
    (if m < text.length ∧ 3 ≤ m then
        (((text.take m ++ buf.drop m).set (m - 3) dot).set (m - 2) dot).set (m - 1) dot
      else text.take m ++ buf.drop m).length = buf.length := by
  split
  · simp only [List.length_set, List.length_append, List.length_take, List.length_drop]
    omega
  · simp only [List.length_append, List.length_take, List.length_drop]
    omega

/-- Under a measure that storing `'.'` over a byte never widens, the buffer
`drawtext` hands to `drawtextn` measures no more than the prefix of the text
it was copied from. -/
theorem drawn_no_wider (X : Extents) (dc : DC) (buf text : List Byte) (m : Nat)
    (hn : m ≤ text.length)
    (hdot : ∀ (t : List Byte) (i n : Nat), textnw X dc (t.set i dot) n ≤ textnw X dc t n) :
    textnw X dc
      (if m < text.length ∧ 3 ≤ m then
        (((text.take m ++ buf.drop m).set (m - 3) dot).set (m - 2) dot).set (m - 1) dot
      else text.take m ++ buf.drop m) m ≤ textnw X dc text m := by
  have hbase : textnw X dc (text.take m ++ buf.drop m) m = textnw X dc text m := by
    apply textnw_congr
    rw [List.take_append_of_le_length (by rw [List.length_take]; omega), List.take_take,
      Nat.min_self]
  split
  · calc textnw X dc
          ((((text.take m ++ buf.drop m).set (m - 3) dot).set (m - 2) dot).set (m - 1) dot) m
        ≤ textnw X dc (((text.take m ++ buf.drop m).set (m - 3) dot).set (m - 2) dot) m :=
          hdot _ _ _
      _ ≤ textnw X dc ((text.take m ++ buf.drop m).set (m - 3) dot) m := hdot _ _ _
      _ ≤ textnw X dc (text.take m ++ buf.drop m) m := hdot _ _ _
      _ = textnw X dc text m := hbase
  · exact le_of_eq hbase

/-- In the fixed-width font a text is as wide after storing `'.'` over a byte
as before. -/
theorem fixedExtents_dot (w : Int) (t : List Byte) (i n : Nat) :
    textnw fixedExtents (fixedDC w) (t.set i dot) n ≤ textnw fixedExtents (fixedDC w) t n := by
  show (6 : Int) * (((t.set i dot).take n).length : Nat) ≤ 6 * ((t.take n).length : Nat)
  rw [List.length_take, List.length_take, List.length_set]

/-- The run of `drawtext` on the 28-byte label in the fixed-width context 66
pixels wide: the loop steps from 28 down to 10 (60 + 6 <= 66), `'.'` is stored
at offsets 7, 8 and 9, and the 10 bytes drawn are `"ThisIsA..."`. -/
theorem drawtext_label :
    ∃ b, drawtext fixedExtents (fixedDC 66) scratch (bytes "ThisIsAVeryLongMenuItemLabel")
        colors =
        .done ⟨[28, 27, 26, 25, 24, 23, 22, 21, 20, 19, 18, 17, 16, 15, 14, 13, 12, 11, 10],
          some 10, [7, 8, 9],
          [Call.drawrect 0 0 66 13 true 0, Call.drawtextn b 10 colors]⟩ ∧
      b.take 10 = bytes "ThisIsA..." := by
  have hmin : MIN (bytes "ThisIsAVeryLongMenuItemLabel").length scratch.length = 28 := by
    rw [scratch_length]; decide
  have hrun : shorten fixedExtents (fixedDC 66) (bytes "ThisIsAVeryLongMenuItemLabel")
      (MIN (bytes "ThisIsAVeryLongMenuItemLabel").length scratch.length + 1)
      (MIN (bytes "ThisIsAVeryLongMenuItemLabel").length scratch.length)
      = .done (some 10,
          [28, 27, 26, 25, 24, 23, 22, 21, 20, 19, 18, 17, 16, 15, 14, 13, 12, 11, 10]) := by
    rw [hmin]; decide
  refine ⟨_, drawtext_eval_some fixedExtents (fixedDC 66) scratch
    (bytes "ThisIsAVeryLongMenuItemLabel") colors scratch_lt 10 _ hrun, ?_⟩
  have ht : List.take 10 (bytes "ThisIsAVeryLongMenuItemLabel")
      = [84, 104, 105, 115, 73, 115, 65, 86, 101, 114] := by decide
  rw [if_pos (by decide), ht]
  rfl

/-- C3, as amended: for every text `T`, every width `W` (so also every `W` of
at least one glyph's width) and every measure function under which storing
`'.'` over a byte of a text never makes the text wider, the byte slice that
`drawtext` hands to `drawtextn` (the buffer after any ellipsis replacement, of
length `mn`) satisfies `textnw(slice, mn) + height/2 <= dc->w`; and `drawtext`
does hand over such a slice as soon as some `k <= min(len(T), sizeof buf)`
satisfies the bound on `T`. -/
theorem drawtext_slice_within_width (X : Extents) (dc : DC) (buf text : List Byte)
    (col : ColorSet) (hbuf : buf.length < SIZE_MOD)
    (hdot : ∀ (t : List Byte) (i n : Nat), textnw X dc (t.set i dot) n ≤ textnw X dc t n) :
    ∃ tr, drawtext X dc buf text col = .done tr ∧
      (∀ b mn c, Call.drawtextn b mn c ∈ tr.calls →
        textnw X dc b mn + Int.tdiv dc.font.height 2 ≤ dc.w) ∧
      ((∃ k, k ≤ MIN text.length buf.length ∧
          textnw X dc text k + Int.tdiv dc.font.height 2 ≤ dc.w) →
        ∃ b mn, tr.calls =
          [Call.drawrect 0 0 (toUnsigned dc.w) (toUnsigned dc.h) true col.BG,
           Call.drawtextn b mn col]) := by
  obtain ⟨r, t, -, hdraw, -, -, -, -, hsome, hnone⟩ := drawtext_run X dc buf text col hbuf
  cases r with
  | none =>
    refine ⟨_, hdraw, ?_, ?_⟩
    · intro b mn c hmem
      simp at hmem
    · rintro ⟨k, hk, hfit⟩
      exact absurd hfit (not_le.mpr ((hnone rfl).2 k hk))
  | some m =>
    obtain ⟨hle, -, hfit, -⟩ := hsome m rfl
    have hn : m ≤ text.length := le_trans hle (MIN_le_left _ _)
    refine ⟨_, hdraw, ?_, fun _ => ⟨_, _, rfl⟩⟩
    intro b mn c hmem
    obtain ⟨rfl, rfl, -⟩ := mem_calls _ _ _ _ _ _ _ _ _ _ _ _ hmem
    have hw := drawn_no_wider X dc buf text mn hn hdot
    linarith

/-- Witness for C3 as amended: the 28-byte label in the fixed-width context 66
pixels wide is cut to 10 bytes, the last three of them `'.'`, and the slice
`"ThisIsA..."` handed to `drawtextn` is within the width. -/
theorem drawtext_slice_within_width_witness :
    scratch.length < SIZE_MOD ∧
    (∀ (t : List Byte) (i n : Nat),
      textnw fixedExtents (fixedDC 66) (t.set i dot) n
        ≤ textnw fixedExtents (fixedDC 66) t n) ∧
    ∃ b, drawtext fixedExtents (fixedDC 66) scratch (bytes "ThisIsAVeryLongMenuItemLabel")
        colors =
        .done ⟨[28, 27, 26, 25, 24, 23, 22, 21, 20, 19, 18, 17, 16, 15, 14, 13, 12, 11, 10],
          some 10, [7, 8, 9],
          [Call.drawrect 0 0 66 13 true 0, Call.drawtextn b 10 colors]⟩ ∧
      b.take 10 = bytes "ThisIsA..." ∧
      textnw fixedExtents (fixedDC 66) b 10 + Int.tdiv (fixedDC 66).font.height 2
        ≤ (fixedDC 66).w := by
  obtain ⟨tr, htr, hall, -⟩ :=
    drawtext_slice_within_width fixedExtents (fixedDC 66) scratch
      (bytes "ThisIsAVeryLongMenuItemLabel") colors scratch_lt (fixedExtents_dot 66)
  obtain ⟨b, hb, htake⟩ := drawtext_label
  have htr2 : tr = _ := Run.done.inj (htr.symm.trans hb)
  refine ⟨scratch_lt, fixedExtents_dot 66, b, hb, htake, hall b 10 colors ?_⟩
  rw [htr2]
  simp

/-- C4, the code at the failing input: `"abcd"` in a fixed-width context 20
pixels wide fits 2 bytes (12 + 6 <= 20, 18 + 6 > 20); `mn = 2 < 4`, but
`MAX(mn-3, 0)` is `2^64 - 1`, the ellipsis loop stores nothing, and the two
bytes drawn are `"ab"`, not `".."`. -/
theorem drawtext_two_bytes_no_ellipsis :
    MAX ((2 + SIZE_MOD - 3) % SIZE_MOD) 0 = 2 ^ 64 - 1 ∧
    ∃ b, drawtext fixedExtents (fixedDC 20) scratch (bytes "abcd") colors =
        .done ⟨[4, 3, 2], some 2, [],
          [Call.drawrect 0 0 20 13 true 0, Call.drawtextn b 2 colors]⟩ ∧
      b.take 2 = bytes "ab" := by
  refine ⟨by decide, ?_⟩
  have hmin : MIN (bytes "abcd").length scratch.length = 4 := by
    rw [scratch_length]; decide
  have hrun : shorten fixedExtents (fixedDC 20) (bytes "abcd")
      (MIN (bytes "abcd").length scratch.length + 1) (MIN (bytes "abcd").length scratch.length)
      = .done (some 2, [4, 3, 2]) := by
    rw [hmin]; decide
  refine ⟨_, drawtext_eval_some fixedExtents (fixedDC 20) scratch (bytes "abcd") colors
    scratch_lt 2 [4, 3, 2] hrun, ?_⟩
  have ht : List.take 2 (bytes "abcd") = [97, 98] := by decide
  rw [if_neg (by decide), ht]
  rfl

/-- Counterexample to C5 as stated: fitting `"iiii"` in the proportional-font
context yields the 3 bytes `"..."`; fitting `"..."` against the same width
yields 2 bytes, because `"..."` itself measures 15 + 5 > 17. -/
theorem drawtext_refit_shorter :
    ∃ b, drawtext propExtents propDC scratch (bytes "iiii") colors =
        .done ⟨[4, 3], some 3, [0, 1, 2],
          [Call.drawrect 0 0 17 10 true 0, Call.drawtextn b 3 colors]⟩ ∧
      b.take 3 = bytes "..." ∧
      ∃ b2, drawtext propExtents propDC scratch (b.take 3) colors =
        .done ⟨[3, 2], some 2, [],
          [Call.drawrect 0 0 17 10 true 0, Call.drawtextn b2 2 colors]⟩ := by
  obtain ⟨b, hb, htake⟩ := drawtext_iiii
  refine ⟨b, hb, htake, ?_⟩
  rw [htake]
  have hmin : MIN (bytes "...").length scratch.length = 3 := by
    rw [scratch_length]; decide
  have hrun : shorten propExtents propDC (bytes "...")
      (MIN (bytes "...").length scratch.length + 1) (MIN (bytes "...").length scratch.length)
      = .done (some 2, [3, 2]) := by
    rw [hmin]; decide
  exact ⟨_, drawtext_eval_some propExtents propDC scratch (bytes "...") colors
    scratch_lt 2 [3, 2] hrun⟩

/-- C5, as amended: for every text `T`, width `W` and measure function under
which storing `'.'` over a byte of a text never makes the text wider, the
fitting done by `drawtext` is idempotent: if fitting `T` yields the (possibly
ellipsis-truncated) byte string `R`, the `mn` bytes handed to `drawtextn`,
then fitting `R` against the same width, with a scratch array of the same
size, yields `R` again: one evaluation of the width test, the same length,
the same bytes, no `'.'` stored. -/
theorem drawtext_refit_stable (X : Extents) (dc : DC) (buf buf2 text : List Byte)
    (col : ColorSet) (hbuf : buf.length < SIZE_MOD) (hbuf2 : buf2.length = buf.length)
    (hdot : ∀ (t : List Byte) (i n : Nat), textnw X dc (t.set i dot) n ≤ textnw X dc t n) :
    ∃ tr, drawtext X dc buf text col = .done tr ∧
      ((∀ b mn c, Call.drawtextn b mn c ∈ tr.calls →
        (b.take mn).length = mn ∧
        ∃ b2, drawtext X dc buf2 (b.take mn) col =
            .done ⟨[mn], some mn, [],
              [Call.drawrect 0 0 (toUnsigned dc.w) (toUnsigned dc.h) true col.BG,
               Call.drawtextn b2 mn col]⟩ ∧
          b2.take mn = b.take mn)) ∧
      ((∃ k, k ≤ MIN text.length buf.length ∧
          textnw X dc text k + Int.tdiv dc.font.height 2 ≤ dc.w) →
        ∃ b mn, tr.calls =
          [Call.drawrect 0 0 (toUnsigned dc.w) (toUnsigned dc.h) true col.BG,
           Call.drawtextn b mn col]) := by
  obtain ⟨r, t, -, hdraw, -, -, -, -, hsome, hnone⟩ := drawtext_run X dc buf text col hbuf
  cases r with
  | none =>
    refine ⟨_, hdraw, ?_, ?_⟩
    · intro b mn c hmem
      simp at hmem
    · rintro ⟨k, hk, hfit⟩
      exact absurd hfit (not_le.mpr ((hnone rfl).2 k hk))
  | some m =>
    obtain ⟨hle, -, hfit, -⟩ := hsome m rfl
    have hn : m ≤ text.length := le_trans hle (MIN_le_left _ _)
    have hb : m ≤ buf.length := le_trans hle (MIN_le_right _ _)
    refine ⟨_, hdraw, ?_, fun _ => ⟨_, _, rfl⟩⟩
    intro b mn c hmem
    obtain ⟨rfl, rfl, -⟩ := mem_calls _ _ _ _ _ _ _ _ _ _ _ _ hmem
    have hblen := drawn_length buf text mn hn hb
    have hw := drawn_no_wider X dc buf text mn hn hdot
    generalize (if mn < text.length ∧ 3 ≤ mn then
        (((text.take mn ++ buf.drop mn).set (mn - 3) dot).set (mn - 2) dot).set (mn - 1) dot
      else text.take mn ++ buf.drop mn) = b at hblen hw
    have hR : (b.take mn).length = mn := by
      rw [List.length_take, hblen]; omega
    refine ⟨hR, ?_⟩
    have hsame : textnw X dc (b.take mn) mn = textnw X dc b mn :=
      textnw_congr X dc _ _ mn (by rw [List.take_take, Nat.min_self])
    have hfitR : textnw X dc (b.take mn) (b.take mn).length
        + Int.tdiv dc.font.height 2 ≤ dc.w := by
      rw [hR, hsame]
      linarith
    have h := drawtext_of_fits X dc buf2 (b.take mn) col (by rw [hR, hbuf2]; exact hb) hfitR
    rw [hR] at h
    refine ⟨_, h, ?_⟩
    rw [List.take_append_of_le_length (by rw [hR]), List.take_take, Nat.min_self]

/-- Witness for C5 as amended: the 28-byte label in the fixed-width context 66
pixels wide is fitted to the 10 bytes `"ThisIsA..."`; fitting those 10 bytes
against the same width yields them again. -/
theorem drawtext_refit_stable_witness :
    scratch.length < SIZE_MOD ∧ scratch.length = scratch.length ∧
    (∀ (t : List Byte) (i n : Nat),
      textnw fixedExtents (fixedDC 66) (t.set i dot) n
        ≤ textnw fixedExtents (fixedDC 66) t n) ∧
    ∃ b, drawtext fixedExtents (fixedDC 66) scratch (bytes "ThisIsAVeryLongMenuItemLabel")
        colors =
        .done ⟨[28, 27, 26, 25, 24, 23, 22, 21, 20, 19, 18, 17, 16, 15, 14, 13, 12, 11, 10],
          some 10, [7, 8, 9],
          [Call.drawrect 0 0 66 13 true 0, Call.drawtextn b 10 colors]⟩ ∧
      b.take 10 = bytes "ThisIsA..." ∧
      ∃ b2, drawtext fixedExtents (fixedDC 66) scratch (bytes "ThisIsA...") colors =
          .done ⟨[10], some 10, [],
            [Call.drawrect 0 0 66 13 true 0, Call.drawtextn b2 10 colors]⟩ ∧
        b2.take 10 = bytes "ThisIsA..." := by
  obtain ⟨tr, htr, hall, -⟩ :=
    drawtext_refit_stable fixedExtents (fixedDC 66) scratch scratch
      (bytes "ThisIsAVeryLongMenuItemLabel") colors scratch_lt rfl (fixedExtents_dot 66)
  obtain ⟨b, hb, htake⟩ := drawtext_label
  have htr2 : tr = _ := Run.done.inj (htr.symm.trans hb)
  have hmem : Call.drawtextn b 10 colors ∈ tr.calls := by
    rw [htr2]
    simp
  obtain ⟨-, b2, hb2, htake2⟩ := hall b 10 colors hmem
  rw [htake] at hb2 htake2
  exact ⟨scratch_lt, rfl, fixedExtents_dot 66, b, hb, htake, b2, hb2, htake2⟩

/-- C6: the shortening loop of `drawtext` ends. With any step budget above
`min(len(T), sizeof buf)` the loop returns a result after at most
`min(len(T), sizeof buf) + 1` evaluations of the width test; in `drawtext` the
values of `mn` tested start at that minimum, each next one is exactly one less
than the one before (no wrap-around below 0), and none exceeds the minimum;
and if `textnw(T, k) + height/2 > dc->w` for every `k` from 0 to the minimum,
`drawtext` returns having copied nothing and made no call to `drawrect` or
`drawtextn`. -/
theorem drawtext_loop_terminates (X : Extents) (dc : DC) (buf text : List Byte)
    (col : ColorSet) (hbuf : buf.length < SIZE_MOD) :
    (∀ fuel, MIN text.length buf.length < fuel →
      ∃ r t, shorten X dc text fuel (MIN text.length buf.length) = .done (r, t) ∧
        t.length ≤ MIN text.length buf.length + 1) ∧
    ∃ tr, drawtext X dc buf text col = .done tr ∧
      tr.tested.length ≤ MIN text.length buf.length + 1 ∧
      tr.tested.head? = some (MIN text.length buf.length) ∧
      List.Chain' (fun a b => a = b + 1) tr.tested ∧
      (∀ k ∈ tr.tested, k ≤ MIN text.length buf.length) ∧
      ((∀ k, k ≤ MIN text.length buf.length →
          textnw X dc text k + Int.tdiv dc.font.height 2 > dc.w) →
        tr.copied = none ∧ tr.dots = [] ∧ tr.calls = []) := by
  have h0 : MIN text.length buf.length < SIZE_MOD :=
    lt_of_le_of_lt (MIN_le_right _ _) hbuf
  refine ⟨?_, ?_⟩
  · intro fuel hfuel
    obtain ⟨r, t, hrun, hlen, -⟩ :=
      shorten_spec X dc text (MIN text.length buf.length) fuel h0 hfuel
    exact ⟨r, t, hrun, hlen⟩
  · obtain ⟨r, t, -, hdraw, hlen, hhead, hmem, hchain, hsome, -⟩ :=
      drawtext_run X dc buf text col hbuf
    cases r with
    | none =>
      exact ⟨_, hdraw, hlen, hhead, hchain, hmem, fun _ => ⟨rfl, rfl, rfl⟩⟩
    | some m =>
      refine ⟨_, hdraw, hlen, hhead, hchain, hmem, ?_⟩
      intro hall
      obtain ⟨hle, -, hfit, -⟩ := hsome m rfl
      exact absurd hfit (not_le.mpr (hall m hle))

/-- Witness for C6: `"Hello, World!"` in a context 5 pixels wide, narrower
than the margin `height/2 = 6` alone. -/
theorem drawtext_loop_terminates_witness :
    scratch.length < SIZE_MOD ∧
    (∀ fuel, MIN (bytes "Hello, World!").length scratch.length < fuel →
      ∃ r t, shorten fixedExtents (fixedDC 5) (bytes "Hello, World!") fuel
          (MIN (bytes "Hello, World!").length scratch.length) = .done (r, t) ∧
        t.length ≤ MIN (bytes "Hello, World!").length scratch.length + 1) ∧
    ∃ tr, drawtext fixedExtents (fixedDC 5) scratch (bytes "Hello, World!") colors
        = .done tr ∧
      tr.tested.length ≤ MIN (bytes "Hello, World!").length scratch.length + 1 ∧
      tr.tested.head? = some (MIN (bytes "Hello, World!").length scratch.length) ∧
      List.Chain' (fun a b => a = b + 1) tr.tested ∧
      (∀ k ∈ tr.tested, k ≤ MIN (bytes "Hello, World!").length scratch.length) ∧
      ((∀ k, k ≤ MIN (bytes "Hello, World!").length scratch.length →
          textnw fixedExtents (fixedDC 5) (bytes "Hello, World!") k
            + Int.tdiv (fixedDC 5).font.height 2 > (fixedDC 5).w) →
        tr.copied = none ∧ tr.dots = [] ∧ tr.calls = []) :=
  ⟨scratch_lt,
    drawtext_loop_terminates fixedExtents (fixedDC 5) scratch (bytes "Hello, World!") colors
      scratch_lt⟩

/-- C10: `drawtext` never stores outside `buf`. For a text of any length the
run ends normally (not in an out-of-bounds store); when the copy is reached
the byte count `mn` given to `memcpy` is at most `sizeof buf` and at most
`len(T)`, and every index at which the ellipsis loop stores `'.'` is below
`mn`, the start `MAX(mn-3, 0)` being computed modulo `2^64`. -/
theorem drawtext_buffer_safe (X : Extents) (dc : DC) (buf text : List Byte)
    (col : ColorSet) (hbuf : buf.length < SIZE_MOD) :
    ∃ tr, drawtext X dc buf text col = .done tr ∧
      ∀ mn, tr.copied = some mn →
        mn ≤ buf.length ∧ mn ≤ text.length ∧ ∀ n ∈ tr.dots, n < mn ∧ n < buf.length := by
  obtain ⟨r, t, -, hdraw, -, -, -, -, hsome, -⟩ := drawtext_run X dc buf text col hbuf
  cases r with
  | none =>
    refine ⟨_, hdraw, ?_⟩
    intro mn hmn
    simp at hmn
  | some m =>
    obtain ⟨hle, -, -, -⟩ := hsome m rfl
    have hn : m ≤ text.length := le_trans hle (MIN_le_left _ _)
    have hb : m ≤ buf.length := le_trans hle (MIN_le_right _ _)
    refine ⟨_, hdraw, ?_⟩
    intro mn hmn
    simp only [Option.some.injEq] at hmn
    subst hmn
    refine ⟨hb, hn, ?_⟩
    intro n hmem
    split at hmem
    · simp only [List.mem_cons, List.mem_singleton, List.not_mem_nil, or_false] at hmem
      omega
    · simp at hmem

/-- Witness for C10: the 8193-byte text, longer than the scratch array. -/
theorem drawtext_buffer_safe_witness :
    scratch.length < SIZE_MOD ∧
    ∃ tr, drawtext fixedExtents (fixedDC 49164) scratch longText colors = .done tr ∧
      ∀ mn, tr.copied = some mn →
        mn ≤ scratch.length ∧ mn ≤ longText.length ∧
        ∀ n ∈ tr.dots, n < mn ∧ n < scratch.length :=
  ⟨scratch_lt,
    drawtext_buffer_safe fixedExtents (fixedDC 49164) scratch longText colors scratch_lt⟩

/-! ## The claims about `initfont` and `resizedc` -/

/-- On `int` operands the macro `MAX` is the maximum. -/
theorem MAX_eq_max (a b : Int) : MAX a b = max a b := by
  unfold MAX
  split
  · exact (max_eq_left (le_of_lt (by assumption))).symm
  · exact (max_eq_right (not_lt.mp (by assumption))).symm

/-- A running maximum over a list, started at `v`, is the greatest of `v` and
the values met. -/
theorem foldl_max_isGreatest (g : XFontStruct → Int) :
    ∀ (l : List XFontStruct) (v : Int),
      IsGreatest {a | a = v ∨ ∃ f ∈ l, a = g f} (l.foldl (fun m f => MAX m (g f)) v) := by
  simp only [MAX_eq_max]
  intro l
  induction l with
  | nil =>
    intro v
    refine ⟨Or.inl rfl, ?_⟩
    rintro a (rfl | ⟨f, hf, -⟩)
    · exact le_refl _
    · simp at hf
  | cons x rest ih =>
    intro v
    obtain ⟨hmem, hub⟩ := ih (max v (g x))
    refine ⟨?_, ?_⟩
    · rcases hmem with h | ⟨f, hf, h⟩
      · rcases max_choice v (g x) with hc | hc
        · exact Or.inl (by rw [List.foldl_cons, h, hc])
        · exact Or.inr ⟨x, List.mem_cons_self _ _, by rw [List.foldl_cons, h, hc]⟩
      · exact Or.inr ⟨f, List.mem_cons_of_mem _ hf, h⟩
    · rintro a (rfl | ⟨f, hf, rfl⟩)
      · exact le_trans (le_max_left _ _) (hub (Or.inl rfl))
      · rcases List.mem_cons.mp hf with rfl | hf
        · exact le_trans (le_max_right _ _) (hub (Or.inl rfl))
        · exact hub (Or.inr ⟨f, hf, rfl⟩)

/-- The font-set loop of `initfont` is a running maximum in each metric and
leaves the other fields alone. -/
theorem fontsetLoop_eq :
    ∀ (l : List XFontStruct) (font : Font),
      (fontsetLoop l font).ascent = l.foldl (fun m f => MAX m f.ascent) font.ascent ∧
      (fontsetLoop l font).descent = l.foldl (fun m f => MAX m f.descent) font.descent ∧
      (fontsetLoop l font).width
        = l.foldl (fun m f => MAX m f.max_bounds_width) font.width ∧
      (fontsetLoop l font).set = font.set ∧
      (fontsetLoop l font).xfont = font.xfont := by
  intro l
  induction l with
  | nil => intro font; exact ⟨rfl, rfl, rfl, rfl, rfl⟩
  | cons x rest ih =>
    intro font
    exact ih
      { font with
        ascent := MAX font.ascent x.ascent
        descent := MAX font.descent x.descent
        width := MAX font.width x.max_bounds_width }

/-- With a start of 0 and a non-negative value in the list, the greatest of
start and values is the greatest of the values. -/
theorem isGreatest_drop_zero (g : XFontStruct → Int) (l : List XFontStruct) (v r : Int)
    (h : IsGreatest {a | a = v ∨ ∃ f ∈ l, a = g f} r) (hv : v = 0)
    (hpos : ∃ f ∈ l, 0 ≤ g f) :
    IsGreatest {a | ∃ f ∈ l, a = g f} r := by
  subst hv
  obtain ⟨hmem, hub⟩ := h
  obtain ⟨f0, hf0, h0⟩ := hpos
  refine ⟨?_, fun a ha => hub (Or.inr ha)⟩
  rcases hmem with h | h
  · have hle : g f0 ≤ r := hub (Or.inr ⟨f0, hf0, rfl⟩)
    exact ⟨f0, hf0, le_antisymm (by rw [h]; exact h0) hle⟩
  · exact h

/-- C7, as amended: when `initfont` selects the font-set backend (the bitmap
load fails, the set is created) it returns with `dc->font.set` populated, and
`dc->font.ascent` is the greatest of the value it held before the call and
the ascents of the fonts of the set; likewise `descent` and `width`
(max-bounds widths); `height = ascent + descent`. On a context whose metric
was 0 before the call, as after `initdc`, the result is the maximum of the
fonts' values alone as soon as one of them is non-negative. -/
theorem initfont_fontset_metrics (L : FontLib) (dc : DC) (fontstr : List Byte)
    (set : XFontSet) (hload : L.XLoadQueryFont fontstr = none)
    (hset : L.XCreateFontSet fontstr = some set) :
    ∃ dc2, initfont L dc fontstr = .returns dc2 ∧
      dc2.font.set = some set ∧ dc2.font.xfont = none ∧
      IsGreatest {a | a = dc.font.ascent ∨ ∃ f ∈ set.xfonts, a = f.ascent} dc2.font.ascent ∧
      IsGreatest {a | a = dc.font.descent ∨ ∃ f ∈ set.xfonts, a = f.descent}
        dc2.font.descent ∧
      IsGreatest {a | a = dc.font.width ∨ ∃ f ∈ set.xfonts, a = f.max_bounds_width}
        dc2.font.width ∧
      dc2.font.height = dc2.font.ascent + dc2.font.descent ∧
      (dc.font.ascent = 0 → (∃ f ∈ set.xfonts, 0 ≤ f.ascent) →
        IsGreatest {a | ∃ f ∈ set.xfonts, a = f.ascent} dc2.font.ascent) ∧
      (dc.font.descent = 0 → (∃ f ∈ set.xfonts, 0 ≤ f.descent) →
        IsGreatest {a | ∃ f ∈ set.xfonts, a = f.descent} dc2.font.descent) ∧
      (dc.font.width = 0 → (∃ f ∈ set.xfonts, 0 ≤ f.max_bounds_width) →
        IsGreatest {a | ∃ f ∈ set.xfonts, a = f.max_bounds_width} dc2.font.width) := by
  obtain ⟨h1, h2, h3, h4, h5⟩ :=
    fontsetLoop_eq set.xfonts { dc.font with xfont := none, set := some set }
  have ha := foldl_max_isGreatest (fun f => f.ascent) set.xfonts dc.font.ascent
  have hd := foldl_max_isGreatest (fun f => f.descent) set.xfonts dc.font.descent
  have hw := foldl_max_isGreatest (fun f => f.max_bounds_width) set.xfonts dc.font.width
  refine ⟨setHeight
      { dc with font :=
        fontsetLoop set.xfonts { dc.font with xfont := none, set := some set } },
    by simp only [initfont, hload, hset], ?_, ?_, ?_, ?_, ?_, rfl, ?_, ?_, ?_⟩
  · exact h4
  · exact h5
  · show IsGreatest _ (fontsetLoop set.xfonts _).ascent
    rw [h1]; exact ha
  · show IsGreatest _ (fontsetLoop set.xfonts _).descent
    rw [h2]; exact hd
  · show IsGreatest _ (fontsetLoop set.xfonts _).width
    rw [h3]; exact hw
  · intro hz hpos
    show IsGreatest _ (fontsetLoop set.xfonts _).ascent
    rw [h1]
    exact isGreatest_drop_zero (fun f => f.ascent) _ _ _ ha hz hpos
  · intro hz hpos
    show IsGreatest _ (fontsetLoop set.xfonts _).descent
    rw [h2]
    exact isGreatest_drop_zero (fun f => f.descent) _ _ _ hd hz hpos
  · intro hz hpos
    show IsGreatest _ (fontsetLoop set.xfonts _).width
    rw [h3]
    exact isGreatest_drop_zero (fun f => f.max_bounds_width) _ _ _ hw hz hpos

/-- Witness for C7 as amended: the font set of two fonts, loaded on the
context `initdc` returns. -/
theorem initfont_fontset_metrics_witness :
    sampleLib.XLoadQueryFont (bytes "-*-helv-*") = none ∧
    sampleLib.XCreateFontSet (bytes "-*-helv-*") =
      some { xfonts := [{ fid := 2, ascent := 10, descent := 2, max_bounds_width := 6 },
                        { fid := 3, ascent := 12, descent := 3, max_bounds_width := 7 }] } ∧
    ∃ dc2, initfont sampleLib freshDC (bytes "-*-helv-*") = .returns dc2 ∧
      dc2.font.ascent = 12 ∧ dc2.font.descent = 3 ∧ dc2.font.width = 7 ∧
      dc2.font.height = 15 ∧
      IsGreatest {a | ∃ f ∈ [({ fid := 2, ascent := 10, descent := 2, max_bounds_width := 6 }
            : XFontStruct), { fid := 3, ascent := 12, descent := 3, max_bounds_width := 7 }],
          a = f.ascent} dc2.font.ascent := by
  have hload : sampleLib.XLoadQueryFont (bytes "-*-helv-*") = none := by decide
  have hset : sampleLib.XCreateFontSet (bytes "-*-helv-*") =
      some { xfonts := [{ fid := 2, ascent := 10, descent := 2, max_bounds_width := 6 },
                        { fid := 3, ascent := 12, descent := 3, max_bounds_width := 7 }] } := by
    decide
  obtain ⟨dc2, hrun, -, -, -, -, -, -, hasc, -, -⟩ :=
    initfont_fontset_metrics sampleLib freshDC (bytes "-*-helv-*") _ hload hset
  have hval : initfont sampleLib freshDC (bytes "-*-helv-*") = .returns
      { freshDC with font :=
        { ascent := 12, descent := 3, height := 15, width := 7,
          set := some { xfonts :=
            [{ fid := 2, ascent := 10, descent := 2, max_bounds_width := 6 },
             { fid := 3, ascent := 12, descent := 3, max_bounds_width := 7 }] },
          xfont := none } } := by decide
  have hdc : dc2 = _ := Exit.returns.inj (hrun.symm.trans hval)
  refine ⟨hload, hset, dc2, hrun, ?_, ?_, ?_, ?_, ?_⟩
  · rw [hdc]
  · rw [hdc]
  · rw [hdc]
  · rw [hdc]
  · exact hasc rfl ⟨_, List.mem_cons_self _ _, by decide⟩

/-- Counterexample to C7 as stated. First: `initfont` is called with `"fixed"`
(a bitmap font, ascent 20, descent 5, width 10) and then with `"-*-helv-*"`
(a font set of two fonts, ascents 10 and 12, descents 2 and 3, widths 6 and
7); the second call selects the font set, and the metrics stay 20, 5 and 10,
not 12, 3 and 7. Second: on the context `initdc` returns, a font set whose
one font has ascent -1, descent -2 and width -3 gives the metrics 0, 0, 0. -/
theorem initfont_fontset_not_max :
    (∃ dc1 dc2, initfont sampleLib freshDC (bytes "fixed") = .returns dc1 ∧
      initfont sampleLib dc1 (bytes "-*-helv-*") = .returns dc2 ∧
      dc2.font.xfont = none ∧
      dc2.font.set =
        some { xfonts := [{ fid := 2, ascent := 10, descent := 2, max_bounds_width := 6 },
                          { fid := 3, ascent := 12, descent := 3, max_bounds_width := 7 }] } ∧
      dc2.font.ascent = 20 ∧ dc2.font.descent = 5 ∧ dc2.font.width = 10) ∧
    (∃ dc3, initdc true (some 1) (fun _ => 1) = .returns freshDC ∧
      initfont negativeLib freshDC (bytes "-*-neg-*") = .returns dc3 ∧
      dc3.font.xfont = none ∧
      dc3.font.set =
        some { xfonts := [{ fid := 2, ascent := -1, descent := -2, max_bounds_width := -3 }] } ∧
      dc3.font.ascent = 0 ∧ dc3.font.descent = 0 ∧ dc3.font.width = 0) := by
  refine ⟨⟨_, _, rfl, rfl, ?_⟩, ⟨_, by decide, rfl, ?_⟩⟩
  · decide
  · decide

/-- C8, the code at the failing input: on a context whose font backend is the
Pango layout, `resizedc(dc, 100, 20)` creates pixmap 1 and an Xft drawable on
it; `resizedc(dc, 200, 20)` then frees pixmap 1 and creates pixmap 2 as the
canvas, but keeps the drawable: afterwards `dc->w = 200`, `dc->h = 20`,
`dc->canvas` is pixmap 2, and `dc->xftdraw` is still on pixmap 1, which is no
longer alive. -/
theorem resizedc_twice_stale_drawable :
    ∃ dc s2 dc2, initfont sampleLib freshDC (bytes "Sans 10") = .returns dc ∧
      dc.pango_layout = some { id := 1 } ∧ dc.xftdraw = none ∧
      resizedcTwice true freshServer dc 100 20 200 20 = .returns (s2, dc2) ∧
      dc2.w = 200 ∧ dc2.h = 20 ∧ dc2.canvas = some 2 ∧
      dc2.xftdraw = some { drawable := 1 } ∧ s2.live = [2] ∧ 1 ∉ s2.live := by
  refine ⟨_, _, _, rfl, ?_, ?_, rfl, ?_⟩
  · decide
  · decide
  · decide

/-- C9: font backend selection on the context `initdc` returns. `initfont`
returns exactly when the bitmap load succeeds, or the font-set creation
succeeds, or all four Pango steps succeed; and whenever it returns, the
bitmap font is populated iff the bitmap load succeeded, the font set iff the
bitmap load failed and the set creation succeeded, the Pango layout iff both
failed; so exactly one of `dc->font.xfont`, `dc->font.set` and
`dc->pango_layout` is populated. -/
theorem initfont_selects_one (L : FontLib) (calloc_ok : Bool) (XOpenDisplay : Option Nat)
    (XCreateGC : Nat → Nat) (dc : DC) (fontstr : List Byte)
    (hfresh : initdc calloc_ok XOpenDisplay XCreateGC = .returns dc) :
    ((∃ dc2, initfont L dc fontstr = .returns dc2) ↔
      (L.XLoadQueryFont fontstr ≠ none ∨ L.XCreateFontSet fontstr ≠ none ∨
        ∃ ctx layout fdesc m, L.pango_font_map_create_context = some ctx ∧
          L.pango_layout_new ctx = some layout ∧
          L.pango_font_description_from_string fontstr = some fdesc ∧
          L.pango_context_get_metrics ctx fdesc = some m)) ∧
    ∀ dc2, initfont L dc fontstr = .returns dc2 →
      (dc2.font.xfont ≠ none ↔ L.XLoadQueryFont fontstr ≠ none) ∧
      (dc2.font.set ≠ none ↔
        (L.XLoadQueryFont fontstr = none ∧ L.XCreateFontSet fontstr ≠ none)) ∧
      (dc2.pango_layout ≠ none ↔
        (L.XLoadQueryFont fontstr = none ∧ L.XCreateFontSet fontstr = none)) ∧
      ((dc2.font.xfont ≠ none ∧ dc2.font.set = none ∧ dc2.pango_layout = none) ∨
       (dc2.font.xfont = none ∧ dc2.font.set ≠ none ∧ dc2.pango_layout = none) ∨
       (dc2.font.xfont = none ∧ dc2.font.set = none ∧ dc2.pango_layout ≠ none)) := by
  have hdc : dc.font.set = none ∧ dc.pango_layout = none ∧ dc.font.xfont = none := by
    unfold initdc at hfresh
    cases calloc_ok with
    | false => simp at hfresh
    | true =>
      cases XOpenDisplay with
      | none => simp at hfresh
      | some dpy =>
        simp only [if_true, Exit.returns.injEq] at hfresh
        subst hfresh
        exact ⟨rfl, rfl, rfl⟩
  obtain ⟨hs, hp, hx⟩ := hdc
  unfold initfont
  cases h1 : L.XLoadQueryFont fontstr with
  | some xf =>
    refine ⟨by simp, ?_⟩
    intro dc2 h
    simp only [Exit.returns.injEq] at h
    subst h
    simp [setHeight, hs, hp]
  | none =>
    cases h2 : L.XCreateFontSet fontstr with
    | some s =>
      refine ⟨by simp, ?_⟩
      intro dc2 h
      simp only [Exit.returns.injEq] at h
      subst h
      obtain ⟨-, -, -, h4, h5⟩ :=
        fontsetLoop_eq s.xfonts { dc.font with xfont := none, set := some s }
      simp [setHeight, hp, h4, h5]
    | none =>
      cases h3 : L.pango_font_map_create_context with
      | none => simp
      | some ctx =>
        cases h4 : L.pango_layout_new ctx with
        | none => simp [h4]
        | some layout =>
          cases h5 : L.pango_font_description_from_string fontstr with
          | none => simp [h4]
          | some fdesc =>
            cases h6 : L.pango_context_get_metrics ctx fdesc with
            | none => simp [h4, h6]
            | some m =>
              refine ⟨by simp [h4, h6], ?_⟩
              intro dc2 h
              simp only [h4, h6, Exit.returns.injEq] at h
              subst h
              simp [setHeight]

/-- Witness for C9: the context `initdc` returns for display 1, and the font
string `"Sans 10"`, which only Pango can load. -/
theorem initfont_selects_one_witness :
    initdc true (some 1) (fun _ => 1) = .returns freshDC ∧
    ((∃ dc2, initfont sampleLib freshDC (bytes "Sans 10") = .returns dc2) ↔
      (sampleLib.XLoadQueryFont (bytes "Sans 10") ≠ none ∨
        sampleLib.XCreateFontSet (bytes "Sans 10") ≠ none ∨
        ∃ ctx layout fdesc m, sampleLib.pango_font_map_create_context = some ctx ∧
          sampleLib.pango_layout_new ctx = some layout ∧
          sampleLib.pango_font_description_from_string (bytes "Sans 10") = some fdesc ∧
          sampleLib.pango_context_get_metrics ctx fdesc = some m)) ∧
    ∀ dc2, initfont sampleLib freshDC (bytes "Sans 10") = .returns dc2 →
      (dc2.font.xfont ≠ none ↔ sampleLib.XLoadQueryFont (bytes "Sans 10") ≠ none) ∧
      (dc2.font.set ≠ none ↔
        (sampleLib.XLoadQueryFont (bytes "Sans 10") = none ∧
          sampleLib.XCreateFontSet (bytes "Sans 10") ≠ none)) ∧
      (dc2.pango_layout ≠ none ↔
        (sampleLib.XLoadQueryFont (bytes "Sans 10") = none ∧
          sampleLib.XCreateFontSet (bytes "Sans 10") = none)) ∧
      ((dc2.font.xfont ≠ none ∧ dc2.font.set = none ∧ dc2.pango_layout = none) ∨
       (dc2.font.xfont = none ∧ dc2.font.set ≠ none ∧ dc2.pango_layout = none) ∨
       (dc2.font.xfont = none ∧ dc2.font.set = none ∧ dc2.pango_layout ≠ none)) :=
  ⟨by decide,
    initfont_selects_one sampleLib true (some 1) (fun _ => 1) freshDC (bytes "Sans 10")
      (by decide)⟩

end Dmenu
